import Mathlib

/-!
Verification of the l10n message-identifier checker (check_l10n.mjs).

Strings are modelled as lists of characters; each JavaScript string
operation used by the checker (split on a one-character separator,
includes, indexOf, slice, length) is embedded as a Lean function on
`List Char` with the same semantics.
-/

namespace CheckL10n

/-- Strings of the scanned program, modelled as lists of characters. -/
abbrev Str := List Char

/-- The dash character, the separator of identifier components. -/
def dash : Char := '-'

/-- The newline character, used for line counting and catalog splitting. -/
def nl : Char := Char.ofNat 10

/-- The double-quote character. -/
def dquote : Char := Char.ofNat 34

/-- The single-quote character. -/
def squote : Char := Char.ofNat 39

/-- The backquote character. -/
def btick : Char := Char.ofNat 96

/-- The dollar character, first character of the interpolation-open marker. -/
def dollar : Char := Char.ofNat 36

/-- The opening-brace character, second character of the interpolation-open marker. -/
def obrace : Char := Char.ofNat 123

/-- A source file of the corpus: a path paired with its content
(the `{ path, content }` records produced by `loadSources`). -/
structure SourceFile where
  path : Str
  content : Str
deriving DecidableEq

/-- Default file used only to give `List.getD` a value off the end. -/
def dfltFile : SourceFile := ⟨[], []⟩

/-- Minimum number of characters a fragment must have to be considered a
meaningful match when detecting dynamically-built identifiers. -/
def MIN_FRAGMENT_LENGTH : Nat := 6

/-- Substring test: JavaScript `haystack.includes(needle)`. -/
def containsSub (haystack needle : Str) : Bool :=
  match haystack with
  | [] => needle.isEmpty
  | c :: rest => needle.isPrefixOf (c :: rest) || containsSub rest needle

/-- First-occurrence index: JavaScript `haystack.indexOf(needle)` for a
needle that occurs in the haystack (the checker only calls it under an
`includes` guard, so the not-found value is never observed). -/
def indexOfSub (haystack needle : Str) : Nat :=
  match haystack with
  | [] => 0
  | c :: rest => if needle.isPrefixOf (c :: rest) then 0 else indexOfSub rest needle + 1

/-- Splitting on a one-character separator: JavaScript `s.split(sep)` for a
single-character `sep`.  The result is never empty and keeps empty pieces,
exactly as in JavaScript (`"".split` gives one empty piece). -/
def splitChar (sep : Char) : Str → List Str
  | [] => [[]]
  | c :: rest =>
    match splitChar sep rest with
    | [] => [[]]
    | s :: ss => if c == sep then [] :: s :: ss else (c :: s) :: ss

/-- ASCII letter test, the regex class `[a-zA-Z]`. -/
def isAsciiAlpha (c : Char) : Bool :=
  (decide (97 ≤ c.toNat) && decide (c.toNat ≤ 122)) ||
    (decide (65 ≤ c.toNat) && decide (c.toNat ≤ 90))

/-- Identifier-character test, the regex class `[a-zA-Z0-9-]`. -/
def isIdChar (c : Char) : Bool :=
  isAsciiAlpha c || (decide (48 ≤ c.toNat) && decide (c.toNat ≤ 57)) || c == dash

/-- JavaScript whitespace, the regex class `\s` (ECMAScript WhiteSpace and
LineTerminator code points). -/
def isJsSpace (c : Char) : Bool :=
  decide (c.toNat = 9) || decide (c.toNat = 10) || decide (c.toNat = 11) ||
    decide (c.toNat = 12) || decide (c.toNat = 13) || decide (c.toNat = 32) ||
    decide (c.toNat = 0xa0) || decide (c.toNat = 0x1680) ||
    (decide (0x2000 ≤ c.toNat) && decide (c.toNat ≤ 0x200a)) ||
    decide (c.toNat = 0x2028) || decide (c.toNat = 0x2029) ||
    decide (c.toNat = 0x202f) || decide (c.toNat = 0x205f) ||
    decide (c.toNat = 0x3000) || decide (c.toNat = 0xfeff)

/-- Matching one catalog line against the anchored regex
`^([a-zA-Z][a-zA-Z0-9-]*)\s*=`, returning the captured group.  The greedy
capture is deterministic here: a character dropped from the capture by
backtracking would have to match `\s*=`, but identifier characters are
neither whitespace nor the equals sign, so the capture is the maximal run
of identifier characters starting with a letter, and the match succeeds
exactly when that run is followed by whitespace and an equals sign. -/
def matchLine (line : Str) : Option Str :=
  match line with
  | [] => none
  | c :: rest =>
    if isAsciiAlpha c then
      let after := rest.dropWhile isIdChar
      match after.dropWhile isJsSpace with
      | [] => none
      | e :: _ => if e == '=' then some (c :: rest.takeWhile isIdChar) else none
    else none

/-- Extract all message identifiers from catalog text: split on newlines and
collect the capture of every line matching the declaration regex, in order,
keeping duplicates (function `extractFtlIds`). -/
def extractFtlIds (catalog : Str) : List Str :=
  (splitChar nl catalog).filterMap matchLine

/-- Static usage test (function `isUsed`): the identifier appears somewhere
in some file's content enclosed in double quotes, single quotes, or
backquotes. -/
def isUsed (id : Str) (sources : List SourceFile) : Bool :=
  let dq := dquote :: id ++ [dquote]
  let sq := squote :: id ++ [squote]
  let bt := btick :: id ++ [btick]
  sources.any fun f =>
    containsSub f.content dq || containsSub f.content sq || containsSub f.content bt

/-- Location of a confirmed dynamic match: file path and 1-based line number. -/
structure MatchLocation where
  path : Str
  line : Nat
deriving DecidableEq

/-- The fixed head of a candidate decomposition, components `[0, i)` joined
by dashes with a trailing dash appended (`parts.slice(0, i).join("-") + "-"`). -/
def candPre (parts : List Str) (i : Nat) : Str :=
  List.intercalate [dash] (parts.take i) ++ [dash]

/-- The fixed tail of a candidate decomposition: empty when `j` is the
component count, otherwise a leading dash followed by components `[j, N)`
joined by dashes (`"-" + parts.slice(j).join("-")`). -/
def candSuf (parts : List Str) (j : Nat) : Str :=
  if j < parts.length then dash :: List.intercalate [dash] (parts.drop j) else []

/-- The search key for the fixed head: the head immediately followed by the
two-character interpolation-open marker. -/
def pwOf (pre : Str) : Str := pre ++ [dollar, obrace]

/-- File acceptance test of the dynamic search: the content contains the
head-plus-marker key and, when the fixed tail is non-empty, also contains
the tail anywhere in the same content. -/
def fileMatches (pw suf : Str) (f : SourceFile) : Bool :=
  containsSub f.content pw && (suf.isEmpty || containsSub f.content suf)

/-- Location reported for a match in file `f`: the path, and the line number
computed as the length of the newline-split of the content sliced up to the
first occurrence of the search key
(`content.slice(0, idx).split("\n").length`). -/
def mkLoc (f : SourceFile) (pw : Str) : MatchLocation :=
  ⟨f.path, (splitChar nl (f.content.take (indexOfSub f.content pw))).length⟩

/-- Inner file loop of the dynamic search: return the location in the first
file accepted for the given key and tail, or none. -/
def findInFiles (pw suf : Str) : List SourceFile → Option MatchLocation
  | [] => none
  | f :: rest =>
    if fileMatches pw suf f then some (mkLoc f pw) else findInFiles pw suf rest

/-- Body of the dynamic search for one split point pair `(i, j)`: apply the
two minimum-length guards, then scan the corpus in order. -/
def tryCandidate (parts : List Str) (sources : List SourceFile) (i j : Nat) :
    Option MatchLocation :=
  let pre := candPre parts i
  let suf := candSuf parts j
  if pre.length < MIN_FRAGMENT_LENGTH then none
  else if !suf.isEmpty && suf.length < MIN_FRAGMENT_LENGTH then none
  else findInFiles (pwOf pre) suf sources

/-- Dynamic-usage search (function `findDynamicLocation`): split the
identifier on dashes, enumerate split point pairs `(i, j)` with
`1 ≤ i < j ≤ N` in increasing `i` then increasing `j`, and return the first
location produced by the candidate body, or none. -/
def findDynamicLocation (id : Str) (sources : List SourceFile) :
    Option MatchLocation :=
  let parts := splitChar dash id
  (List.range' 1 (parts.length - 1)).findSome? fun i =>
    (List.range' (i + 1) (parts.length - i)).findSome? fun j =>
      tryCandidate parts sources i j

/-- Three-way classification of one identifier. -/
inductive Classification where
  | Used : Classification
  | LikelyDynamic : MatchLocation → Classification
  | Unused : Classification
deriving DecidableEq

/-- Bool test for the Used class. -/
def Classification.isUsedC : Classification → Bool
  | .Used => true
  | _ => false

/-- Bool test for the LikelyDynamic class. -/
def Classification.isDynC : Classification → Bool
  | .LikelyDynamic _ => true
  | _ => false

/-- Bool test for the Unused class. -/
def Classification.isUnusedC : Classification → Bool
  | .Unused => true
  | _ => false

/-- Classification of one identifier against a corpus, as determined by the
pipeline of `main`: statically used, else likely dynamic with the found
location, else unused. -/
def classify (id : Str) (sources : List SourceFile) : Classification :=
  if isUsed id sources then .Used
  else
    match findDynamicLocation id sources with
    | some loc => .LikelyDynamic loc
    | none => .Unused

/-- Identifiers of the catalog that pass the static test (the complement of
`notFound` inside `main`), in catalog order with duplicates kept. -/
def usedGroup (ids : List Str) (sources : List SourceFile) : List Str :=
  ids.filter fun id => isUsed id sources

/-- The `notFound` list of `main`: identifiers failing the static test. -/
def notFound (ids : List Str) (sources : List SourceFile) : List Str :=
  ids.filter fun id => !isUsed id sources

/-- The `dynamicEntries` list of `main`: each not-found identifier paired
with its dynamic-search result, keeping only those with a result. -/
def dynamicEntries (ids : List Str) (sources : List SourceFile) :
    List (Str × Option MatchLocation) :=
  ((notFound ids sources).map fun id => (id, findDynamicLocation id sources)).filter
    fun e => e.2.isSome

/-- The `dynamicIds` set of `main`, modelled by the underlying list; the set
is only used for membership tests, which agree with list membership. -/
def dynamicIds (ids : List Str) (sources : List SourceFile) : List Str :=
  (dynamicEntries ids sources).map Prod.fst

/-- The `unused` list of `main`: not-found identifiers that are not among
the dynamic ones. -/
def unused (ids : List Str) (sources : List SourceFile) : List Str :=
  (notFound ids sources).filter fun id => !(dynamicIds ids sources).contains id

/-- Completion status of `main`: 0 when the unused list is empty, else 1
(`process.exitCode = 1` in the non-empty branch). -/
def mainExitCode (ids : List Str) (sources : List SourceFile) : Nat :=
  if (unused ids sources).length = 0 then 0 else 1

/-- One console line of the report, kept abstract: the constructor records
which line of `main` produced it and the data it prints. -/
inductive ReportLine where
  | foundIds : Nat → ReportLine
  | searching : Nat → ReportLine
  | dynamicReport : List (Str × Option MatchLocation) → ReportLine
  | allUsed : ReportLine
  | unusedReport : List Str → ReportLine
deriving DecidableEq

/-- The run of `main` with its two fallible reads made explicit: the catalog
read happens first, the identifier-count line is printed, then the source
corpus is read, and only then does matching and reporting happen.  A read
failure propagates as the error component, and the first component lists the
report lines emitted before the run ended. -/
def runMain {ε : Type} (ftl : Except ε Str) (src : Except ε (List SourceFile)) :
    List ReportLine × Except ε Nat :=
  match ftl with
  | .error e => ([], .error e)
  | .ok catalog =>
    let ids := extractFtlIds catalog
    match src with
    | .error e => ([.foundIds ids.length], .error e)
    | .ok sources =>
      let dyn := dynamicEntries ids sources
      let un := unused ids sources
      ([ReportLine.foundIds ids.length, ReportLine.searching sources.length] ++
          (if 0 < dyn.length then [ReportLine.dynamicReport dyn] else []) ++
          (if un.length = 0 then [ReportLine.allUsed] else [ReportLine.unusedReport un]),
        .ok (mainExitCode ids sources))

/-- The two minimum-length guards of the dynamic search as one test: the
head must reach the threshold, and a non-empty tail must reach it too. -/
def guardsOk (pre suf : Str) : Bool :=
  !decide (pre.length < MIN_FRAGMENT_LENGTH) &&
    !(!suf.isEmpty && decide (suf.length < MIN_FRAGMENT_LENGTH))

/-- Acceptance test for one candidate triple `(i, j, k)`: split points pass
the guards and the file at position `k` passes the containment tests. -/
def tripleAccepted (id : Str) (sources : List SourceFile) (t : Nat × Nat × Nat) :
    Bool :=
  let parts := splitChar dash id
  guardsOk (candPre parts t.1) (candSuf parts t.2.1) &&
    fileMatches (pwOf (candPre parts t.1)) (candSuf parts t.2.1)
      (sources.getD t.2.2 dfltFile)

/-- Location reported for a candidate triple `(i, j, k)`. -/
def tripleLoc (id : Str) (sources : List SourceFile) (t : Nat × Nat × Nat) :
    MatchLocation :=
  mkLoc (sources.getD t.2.2 dfltFile) (pwOf (candPre (splitChar dash id) t.1))

/-- All candidate triples `(i, j, k)` of the dynamic search in its
enumeration order: split point pairs with `1 ≤ i < j ≤ n` ordered by `i`
then `j`, each crossed with every file position `k < m` in corpus order. -/
def candTriples (n m : Nat) : List (Nat × Nat × Nat) :=
  (List.range' 1 (n - 1)).flatMap fun i =>
    (List.range' (i + 1) (n - i)).flatMap fun j =>
      (List.range m).map fun k => (i, j, k)

/-- Strict lexicographic order on candidate triples: smaller first split
point, then smaller second split point, then earlier file position. -/
def tripleLt (a b : Nat × Nat × Nat) : Prop :=
  a.1 < b.1 ∨ (a.1 = b.1 ∧ (a.2.1 < b.2.1 ∨ (a.2.1 = b.2.1 ∧ a.2.2 < b.2.2)))

/-- Declarative reading of the declaration regex
`^([a-zA-Z][a-zA-Z0-9-]*)\s*=`: the capture is a non-empty run of
identifier characters starting with a letter, followed in the line by
whitespace and an equals sign.  Identifier characters are neither
whitespace nor the equals sign, so at most one capture satisfies this. -/
def LineCapture (line t : Str) : Prop :=
  (∃ c ts, t = c :: ts ∧ isAsciiAlpha c = true ∧ ∀ x ∈ ts, isIdChar x = true) ∧
    ∃ sp rest, line = t ++ sp ++ '=' :: rest ∧ ∀ x ∈ sp, isJsSpace x = true

/-! Concrete example data used by the witness theorems. -/

/-- Example identifier that is only built dynamically in the example corpus. -/
def exDynId : Str := "pdfjs-editor-stamp-added-alert".toList

/-- Example file content holding a template literal that assembles the
example identifier, with the suffix fragment also occurring earlier in the
file, away from the interpolation site. -/
def exDynContent : Str :=
  ("// see pdfjs-editor-stamp-added-alert\nconst m = `pdfjs-editor-$\x7btype\x7d-added-alert`;").toList

/-- Example source file for the dynamic-match witnesses. -/
def exDynFile : SourceFile := ⟨"web/a.mjs".toList, exDynContent⟩

/-- Example identifier used as a complete quoted literal. -/
def exUsedId : Str := "pdfjs-foo".toList

/-- Example source file containing the quoted literal. -/
def exUsedFile : SourceFile :=
  ⟨"web/b.mjs".toList, ("el.setAttribute(x, " ++ "\x22pdfjs-foo\x22" ++ ");").toList⟩

/-- Example corpus for the witnesses. -/
def exCorpus : List SourceFile := [exUsedFile, exDynFile]

/-- Example dash-free identifier. -/
def exNoDash : Str := "pdfjsviewer".toList

/-- Example catalog text declaring the example identifiers, with the
dynamic identifier declared twice. -/
def exCatalog : Str :=
  ("pdfjs-foo = Bar\n# comment\npdfjs-editor-stamp-added-alert = A\npdfjs-editor-stamp-added-alert = B\npdfjsviewer = C").toList

/-- The identifier list parsed from the example catalog. -/
def exIds : List Str := extractFtlIds exCatalog

/-- Example declaration line of a catalog. -/
def exLine : Str := "pdfjs-foo = Bar".toList

/-! Supporting lemmas about the string primitives. -/

/-- Substring containment agrees with the mathematical infix relation. -/
theorem containsSub_iff (haystack needle : Str) :
    containsSub haystack needle = true ↔ needle <:+: haystack := by
  induction haystack with
  | nil => simp [containsSub, List.isEmpty_iff]
  | cons c rest ih =>
    rw [containsSub, Bool.or_eq_true, ih, List.isPrefixOf_iff_prefix,
      List.infix_cons_iff]

/-- Splitting never produces the empty list of pieces. -/
theorem splitChar_ne_nil (sep : Char) (l : Str) : splitChar sep l ≠ [] := by
  cases l with
  | nil => simp [splitChar]
  | cons c rest =>
    rw [splitChar]
    cases splitChar sep rest with
    | nil => simp
    | cons s ss =>
      by_cases h : c == sep <;> simp [h]

/-- The number of pieces of a split is the separator count plus one. -/
theorem length_splitChar (sep : Char) (l : Str) :
    (splitChar sep l).length = l.count sep + 1 := by
  induction l with
  | nil => simp [splitChar]
  | cons c rest ih =>
    rw [splitChar]
    cases hs : splitChar sep rest with
    | nil => exact absurd hs (splitChar_ne_nil sep rest)
    | cons s ss =>
      rw [hs] at ih
      rw [List.count_cons]
      by_cases h : c == sep <;> simp [h] at ih ⊢ <;> omega

/-- The index returned by `indexOfSub` is the first occurrence: the needle
is a prefix of the haystack dropped at that index, and at no earlier index. -/
theorem indexOfSub_first (haystack needle : Str)
    (h : containsSub haystack needle = true) :
    needle.isPrefixOf (haystack.drop (indexOfSub haystack needle)) = true ∧
      ∀ k, k < indexOfSub haystack needle →
        needle.isPrefixOf (haystack.drop k) = false := by
  induction haystack with
  | nil =>
    refine ⟨?_, fun k hk => absurd hk (by simp [indexOfSub])⟩
    have : needle = [] := by simpa [containsSub, List.isEmpty_iff] using h
    subst this
    rfl
  | cons c rest ih =>
    by_cases hp : needle.isPrefixOf (c :: rest) = true
    · refine ⟨by simp [indexOfSub, hp], fun k hk => ?_⟩
      simp [indexOfSub, hp] at hk
    · have hc : containsSub rest needle = true := by
        have := h
        rw [containsSub, Bool.or_eq_true] at this
        exact this.resolve_left hp
      obtain ⟨h1, h2⟩ := ih hc
      have hidx : indexOfSub (c :: rest) needle = indexOfSub rest needle + 1 := by
        simp [indexOfSub, hp]
      refine ⟨by simpa [hidx] using h1, fun k hk => ?_⟩
      rw [hidx] at hk
      cases k with
      | zero => simpa using Bool.eq_false_iff.mpr hp
      | succ k' =>
        have := h2 k' (by omega)
        simpa using this

/-- Splitting a concatenation at the boundary where the predicate first
fails: `takeWhile` keeps exactly the left part and `dropWhile` the right. -/
theorem takeWhile_append_eq (p : Char → Bool) (l₁ l₂ : Str)
    (h1 : ∀ x ∈ l₁, p x = true)
    (h2 : ∀ c, l₂.head? = some c → p c = false) :
    (l₁ ++ l₂).takeWhile p = l₁ ∧ (l₁ ++ l₂).dropWhile p = l₂ := by
  induction l₁ with
  | nil =>
    cases l₂ with
    | nil => simp
    | cons c t =>
      have := h2 c rfl
      simp [List.takeWhile_cons, List.dropWhile_cons, this]
  | cons a t ih =>
    have ha := h1 a (by simp)
    obtain ⟨ht, hd⟩ := ih fun x hx => h1 x (List.mem_cons_of_mem a hx)
    simp [List.takeWhile_cons, List.dropWhile_cons, ha, ht, hd]

/-- JavaScript whitespace characters are not identifier characters. -/
theorem jsSpace_not_idChar (c : Char) (h : isJsSpace c = true) :
    isIdChar c = false := by
  have hd : c ≠ dash := by
    intro he
    subst he
    exact absurd h (by decide)
  unfold isJsSpace at h
  simp only [Bool.or_eq_true, Bool.and_eq_true, decide_eq_true_eq] at h
  unfold isIdChar isAsciiAlpha
  simp only [Bool.or_eq_false_iff, Bool.and_eq_false_iff, decide_eq_false_iff_not,
    beq_eq_false_iff_ne, ne_eq]
  refine ⟨⟨?_, ?_⟩, hd⟩ <;> omega

/-- Count of an element in a filtered list. -/
theorem count_filter_eq (p : Str → Bool) (a : Str) (l : List Str) :
    (l.filter p).count a = if p a = true then l.count a else 0 := by
  by_cases h : p a = true
  · simp [h, List.count_filter]
  · rw [if_neg h, List.count_eq_zero]
    intro hmem
    exact h (List.mem_filter.mp hmem).2

/-! Plumbing lemmas connecting the loop embeddings to ordered searches. -/

/-- A first-some search over a flattened list is the nested first-some search. -/
theorem findSome?_flatMap {α β γ : Type} (l : List α) (f : α → List β)
    (g : β → Option γ) :
    (l.flatMap f).findSome? g = l.findSome? fun a => (f a).findSome? g := by
  induction l with
  | nil => simp
  | cons a t ih =>
    rw [List.flatMap_cons, List.findSome?_append, ih, List.findSome?_cons]
    cases (f a).findSome? g <;> simp

/-- Mapping a found element is a first-some search with a guarded function. -/
theorem find?_map_findSome? {α β : Type} (l : List α) (p : α → Bool) (h : α → β) :
    (l.find? p).map h =
      l.findSome? fun a => if p a = true then some (h a) else none := by
  induction l with
  | nil => simp
  | cons a t ih =>
    rw [List.findSome?_cons]
    by_cases hp : p a = true
    · simp [List.find?_cons, hp]
    · simp [List.find?_cons, hp, ih]

/-- Membership in an interval list. -/
theorem mem_range'_iff (s n x : Nat) : x ∈ List.range' s n ↔ s ≤ x ∧ x < s + n := by
  rw [List.mem_range']
  constructor
  · rintro ⟨i, hi, rfl⟩
    omega
  · intro h
    exact ⟨x - s, by omega, by omega⟩

/-- A first-some search with a constant failing function finds nothing. -/
theorem findSome?_const_none {α β : Type} (l : List α) :
    (l.findSome? fun _ => (none : Option β)) = none := by
  induction l with
  | nil => rfl
  | cons a t ih => simp [List.findSome?_cons, ih]

/-- Unfolding a first-some search over the numbers below a successor. -/
theorem findSome?_range_succ {β : Type} (n : Nat) (g : Nat → Option β) :
    (List.range (n + 1)).findSome? g =
      match g 0 with
      | some b => some b
      | none => (List.range n).findSome? fun k => g (k + 1) := by
  rw [List.range_succ_eq_map, List.findSome?_cons, List.findSome?_map]
  rfl

/-- The file loop of the dynamic search, re-indexed over file positions. -/
theorem findInFiles_eq_range (pw suf : Str) (l : List SourceFile) :
    findInFiles pw suf l = (List.range l.length).findSome? fun k =>
      if fileMatches pw suf (l.getD k dfltFile) = true then
        some (mkLoc (l.getD k dfltFile) pw)
      else none := by
  induction l with
  | nil => simp [findInFiles]
  | cons f rest ih =>
    rw [findInFiles, List.length_cons, findSome?_range_succ]
    by_cases hm : fileMatches pw suf f = true
    · simp [hm]
    · simp [hm, List.getD_cons_succ, ih]

/-- The candidate body, re-expressed as a guarded search over file
positions using the acceptance test and reported location of triples. -/
theorem tryCandidate_eq_range (id : Str) (sources : List SourceFile) (i j : Nat) :
    tryCandidate (splitChar dash id) sources i j =
      (List.range sources.length).findSome? fun k =>
        if tripleAccepted id sources (i, j, k) = true then
          some (tripleLoc id sources (i, j, k))
        else none := by
  unfold tryCandidate tripleAccepted tripleLoc guardsOk
  by_cases h1 : (candPre (splitChar dash id) i).length < MIN_FRAGMENT_LENGTH
  · simp [h1, findSome?_const_none]
  · by_cases h2 : (!(candSuf (splitChar dash id) j).isEmpty &&
        decide ((candSuf (splitChar dash id) j).length < MIN_FRAGMENT_LENGTH)) = true
    · simp [h1, h2, findSome?_const_none]
    · simp only [Bool.not_eq_true] at h2
      simp [h1, h2, findInFiles_eq_range]

/-- The dynamic search equals mapping the reported location over the first
accepted triple of the ordered candidate list. -/
theorem findDynamicLocation_eq_find (id : Str) (sources : List SourceFile) :
    findDynamicLocation id sources =
      ((candTriples (splitChar dash id).length sources.length).find?
          (tripleAccepted id sources)).map (tripleLoc id sources) := by
  rw [find?_map_findSome?]
  unfold candTriples
  simp only [findSome?_flatMap, List.findSome?_map]
  unfold findDynamicLocation
  simp only [tryCandidate_eq_range]
  rfl

/-- Characterization of the candidate triples: exactly the triples with
`1 ≤ i < j ≤ n` and a valid file position. -/
theorem mem_candTriples (n m : Nat) (t : Nat × Nat × Nat) :
    t ∈ candTriples n m ↔
      1 ≤ t.1 ∧ t.1 < n ∧ t.1 < t.2.1 ∧ t.2.1 ≤ n ∧ t.2.2 < m := by
  obtain ⟨i, j, k⟩ := t
  simp only [candTriples, List.mem_flatMap, List.mem_map, List.mem_range,
    mem_range'_iff]
  constructor
  · rintro ⟨i', hi', j', hj', k', hk', heq⟩
    obtain ⟨rfl, rfl, rfl⟩ : i' = i ∧ j' = j ∧ k' = k := by
      simpa [Prod.ext_iff] using heq
    refine ⟨by omega, by omega, by omega, by omega, hk'⟩
  · rintro ⟨h1, h2, h3, h4, h5⟩
    exact ⟨i, by omega, j, by omega, k, h5, rfl⟩

/-- The candidate list is strictly increasing in the lexicographic order:
smaller first split point, then second split point, then file position. -/
theorem pairwise_candTriples (n m : Nat) :
    List.Pairwise tripleLt (candTriples n m) := by
  unfold candTriples
  rw [List.pairwise_flatMap]
  refine ⟨fun i _ => ?_, ?_⟩
  · rw [List.pairwise_flatMap]
    refine ⟨fun j _ => ?_, ?_⟩
    · rw [List.pairwise_map]
      exact (List.pairwise_lt_range m).imp fun h =>
        Or.inr ⟨rfl, Or.inr ⟨rfl, h⟩⟩
    · refine (List.pairwise_lt_range' (i + 1) (n - i)).imp ?_
      intro j j' hjj x hx y hy
      simp only [List.mem_map] at hx hy
      obtain ⟨k, _, rfl⟩ := hx
      obtain ⟨k', _, rfl⟩ := hy
      exact Or.inr ⟨rfl, Or.inl hjj⟩
  · refine (List.pairwise_lt_range' 1 (n - 1)).imp ?_
    intro i i' hii x hx y hy
    simp only [List.mem_flatMap, List.mem_map] at hx hy
    obtain ⟨j, _, k, _, rfl⟩ := hx
    obtain ⟨j', _, k', _, rfl⟩ := hy
    exact Or.inl hii

/-! Lemmas about the classification pipeline of `main`. -/

/-- An identifier is classified Used exactly when the static test passes. -/
theorem classify_isUsedC (id : Str) (sources : List SourceFile) :
    (classify id sources).isUsedC = isUsed id sources := by
  unfold classify
  by_cases h : isUsed id sources = true
  · simp [h, Classification.isUsedC]
  · simp only [Bool.not_eq_true] at h
    cases hf : findDynamicLocation id sources <;>
      simp [h, hf, Classification.isUsedC]

/-- An identifier is classified LikelyDynamic exactly when the static test
fails and the dynamic search finds a location. -/
theorem classify_isDynC (id : Str) (sources : List SourceFile) :
    (classify id sources).isDynC =
      (!isUsed id sources && (findDynamicLocation id sources).isSome) := by
  unfold classify
  by_cases h : isUsed id sources = true
  · simp [h, Classification.isDynC]
  · simp only [Bool.not_eq_true] at h
    cases hf : findDynamicLocation id sources <;>
      simp [h, hf, Classification.isDynC]

/-- An identifier is classified Unused exactly when the static test fails
and the dynamic search finds nothing. -/
theorem classify_isUnusedC (id : Str) (sources : List SourceFile) :
    (classify id sources).isUnusedC =
      (!isUsed id sources && !(findDynamicLocation id sources).isSome) := by
  unfold classify
  by_cases h : isUsed id sources = true
  · simp [h, Classification.isUnusedC]
  · simp only [Bool.not_eq_true] at h
    cases hf : findDynamicLocation id sources <;>
      simp [h, hf, Classification.isUnusedC]

/-- The Bool test for the Unused class agrees with equality to Unused. -/
theorem isUnusedC_iff (c : Classification) :
    c.isUnusedC = true ↔ c = Classification.Unused := by
  cases c <;> simp [Classification.isUnusedC]

/-- The identifiers of the dynamic entries are the catalog identifiers that
fail the static test and have a dynamic location. -/
theorem dynamicIds_eq_filter (ids : List Str) (sources : List SourceFile) :
    dynamicIds ids sources =
      ids.filter fun id =>
        !isUsed id sources && (findDynamicLocation id sources).isSome := by
  unfold dynamicIds dynamicEntries notFound
  rw [List.filter_map, List.map_map]
  have hmap : (Prod.fst ∘ fun id => (id, findDynamicLocation id sources)) =
      fun id : Str => id := rfl
  rw [hmap, List.map_id', List.filter_filter]
  refine List.filter_congr fun x _ => ?_
  cases isUsed x sources <;> cases hf : findDynamicLocation x sources <;>
    simp [Function.comp, hf]

/-- Membership in the dynamic identifier set. -/
theorem mem_dynamicIds (ids : List Str) (sources : List SourceFile) (id : Str) :
    id ∈ dynamicIds ids sources ↔
      id ∈ ids ∧ isUsed id sources = false ∧
        (findDynamicLocation id sources).isSome = true := by
  rw [dynamicIds_eq_filter, List.mem_filter]
  simp [Bool.and_eq_true, and_assoc]

/-- The unused list of `main` filters the catalog by the Unused class. -/
theorem unused_eq_filter (ids : List Str) (sources : List SourceFile) :
    unused ids sources =
      ids.filter fun id =>
        !isUsed id sources && !(findDynamicLocation id sources).isSome := by
  unfold unused
  have hcongr : ∀ id ∈ notFound ids sources,
      (!(dynamicIds ids sources).contains id) =
        !(findDynamicLocation id sources).isSome := by
    intro id hid
    have hmem : id ∈ ids ∧ isUsed id sources = false := by
      unfold notFound at hid
      have := List.mem_filter.mp hid
      exact ⟨this.1, by simpa using this.2⟩
    have hc : (dynamicIds ids sources).contains id =
        (findDynamicLocation id sources).isSome := by
      cases hs : (findDynamicLocation id sources).isSome with
      | true =>
        have : id ∈ dynamicIds ids sources :=
          (mem_dynamicIds ids sources id).mpr ⟨hmem.1, hmem.2, hs⟩
        simpa [List.elem_iff] using this
      | false =>
        have : id ∉ dynamicIds ids sources := by
          intro hmem'
          have := (mem_dynamicIds ids sources id).mp hmem'
          rw [this.2.2] at hs
          cases hs
        simpa [List.elem_iff] using this
    rw [hc]
  rw [List.filter_congr hcongr]
  unfold notFound
  rw [List.filter_filter]
  refine List.filter_congr fun x _ => ?_
  cases isUsed x sources <;> cases (findDynamicLocation x sources).isSome <;> rfl

/-! Claim theorems. -/

/-- C1: for every catalog identifier list and corpus, the classification
computed by the pipeline of `main` partitions the declared identifier list:
the used group, the dynamic entries, and the unused list are exactly the
filters of the catalog by the three classification classes — so every
occurrence, duplicates counted, lands in the group of its class and no
occurrence is in two classes — and the three group lengths sum to the
catalog length, so none is omitted. -/
theorem claim_partition (ids : List Str) (sources : List SourceFile) :
    usedGroup ids sources =
      (ids.filter fun id => (classify id sources).isUsedC) ∧
    (dynamicEntries ids sources).map Prod.fst =
      (ids.filter fun id => (classify id sources).isDynC) ∧
    unused ids sources =
      (ids.filter fun id => (classify id sources).isUnusedC) ∧
    (usedGroup ids sources).length + (dynamicEntries ids sources).length +
      (unused ids sources).length = ids.length := by
  have h1 : usedGroup ids sources =
      ids.filter fun id => (classify id sources).isUsedC := by
    unfold usedGroup
    exact List.filter_congr fun x _ => (classify_isUsedC x sources).symm
  have h2 : (dynamicEntries ids sources).map Prod.fst =
      ids.filter fun id => (classify id sources).isDynC := by
    have : (dynamicEntries ids sources).map Prod.fst = dynamicIds ids sources := rfl
    rw [this, dynamicIds_eq_filter]
    exact List.filter_congr fun x _ => (classify_isDynC x sources).symm
  have h3 : unused ids sources =
      ids.filter fun id => (classify id sources).isUnusedC := by
    rw [unused_eq_filter]
    exact List.filter_congr fun x _ => (classify_isUnusedC x sources).symm
  have key : ∀ l : List Str,
      (l.filter fun id => (classify id sources).isUsedC).length +
        (l.filter fun id => (classify id sources).isDynC).length +
        (l.filter fun id => (classify id sources).isUnusedC).length = l.length := by
    intro l
    induction l with
    | nil => rfl
    | cons a t ih =>
      rw [List.filter_cons, List.filter_cons, List.filter_cons]
      cases h : classify a sources with
      | Used =>
        simp only [show Classification.Used.isUsedC = true from rfl,
          show Classification.Used.isDynC = false from rfl,
          show Classification.Used.isUnusedC = false from rfl,
          eq_self_iff_true, if_true, Bool.false_eq_true, if_false,
          List.length_cons]
        omega
      | LikelyDynamic loc =>
        simp only [show (Classification.LikelyDynamic loc).isUsedC = false from rfl,
          show (Classification.LikelyDynamic loc).isDynC = true from rfl,
          show (Classification.LikelyDynamic loc).isUnusedC = false from rfl,
          eq_self_iff_true, if_true, Bool.false_eq_true, if_false,
          List.length_cons]
        omega
      | Unused =>
        simp only [show Classification.Unused.isUsedC = false from rfl,
          show Classification.Unused.isDynC = false from rfl,
          show Classification.Unused.isUnusedC = true from rfl,
          eq_self_iff_true, if_true, Bool.false_eq_true, if_false,
          List.length_cons]
        omega
  refine ⟨h1, h2, h3, ?_⟩
  have hlen : (dynamicEntries ids sources).length =
      ((dynamicEntries ids sources).map Prod.fst).length :=
    (List.length_map _ _).symm
  rw [h1, h3, hlen, h2]
  exact key ids

/-- C2: the static test succeeds exactly when some file of the corpus
contains the identifier bounded by double quotes, single quotes, or
backquotes as a contiguous substring of its content; and a statically-used
identifier is classified Used, hence never Unused or LikelyDynamic. -/
theorem claim_static_soundness (id : Str) (sources : List SourceFile) :
    (isUsed id sources = true ↔
      ∃ f ∈ sources,
        (dquote :: id ++ [dquote]) <:+: f.content ∨
        (squote :: id ++ [squote]) <:+: f.content ∨
        (btick :: id ++ [btick]) <:+: f.content) ∧
    (isUsed id sources = true → classify id sources = Classification.Used) := by
  constructor
  · unfold isUsed
    rw [List.any_eq_true]
    simp only [Bool.or_eq_true, containsSub_iff, or_assoc]
  · intro h
    unfold classify
    simp [h]

/-- Witness for C2 at a concrete identifier and corpus. -/
theorem claim_static_soundness_witness :
    classify exUsedId exCorpus = Classification.Used :=
  (claim_static_soundness exUsedId exCorpus).2 (by decide)

/-- C3: the dynamic search returns the location of the first accepted
triple of the candidate enumeration: the candidate list is strictly ordered
by smallest first split point, then second split point, then file position,
it holds exactly the triples `1 ≤ i < j ≤ N` crossed with the file
positions, the reported location of an accepted triple is the file's path
with the 1-based line number counting newline characters before the index
of the first occurrence of the head-plus-marker key, and when no candidate
triple is accepted the search returns none. -/
theorem claim_first_match (id : Str) (sources : List SourceFile) :
    (findDynamicLocation id sources =
      ((candTriples (splitChar dash id).length sources.length).find?
          (tripleAccepted id sources)).map (tripleLoc id sources)) ∧
    List.Pairwise tripleLt
      (candTriples (splitChar dash id).length sources.length) ∧
    (∀ t : Nat × Nat × Nat,
      t ∈ candTriples (splitChar dash id).length sources.length ↔
        1 ≤ t.1 ∧ t.1 < (splitChar dash id).length ∧ t.1 < t.2.1 ∧
          t.2.1 ≤ (splitChar dash id).length ∧ t.2.2 < sources.length) ∧
    (∀ t : Nat × Nat × Nat, tripleAccepted id sources t = true →
      tripleLoc id sources t =
        ⟨(sources.getD t.2.2 dfltFile).path,
          ((sources.getD t.2.2 dfltFile).content.take
              (indexOfSub (sources.getD t.2.2 dfltFile).content
                (pwOf (candPre (splitChar dash id) t.1)))).count nl + 1⟩ ∧
      (pwOf (candPre (splitChar dash id) t.1)).isPrefixOf
          ((sources.getD t.2.2 dfltFile).content.drop
            (indexOfSub (sources.getD t.2.2 dfltFile).content
              (pwOf (candPre (splitChar dash id) t.1)))) = true ∧
      ∀ k, k < indexOfSub (sources.getD t.2.2 dfltFile).content
            (pwOf (candPre (splitChar dash id) t.1)) →
        (pwOf (candPre (splitChar dash id) t.1)).isPrefixOf
            ((sources.getD t.2.2 dfltFile).content.drop k) = false) ∧
    ((∀ t ∈ candTriples (splitChar dash id).length sources.length,
        tripleAccepted id sources t = false) →
      findDynamicLocation id sources = none) := by
  refine ⟨findDynamicLocation_eq_find id sources, pairwise_candTriples _ _,
    mem_candTriples _ _, ?_, ?_⟩
  · intro t ht
    have hcs : containsSub (sources.getD t.2.2 dfltFile).content
        (pwOf (candPre (splitChar dash id) t.1)) = true := by
      simp only [tripleAccepted, fileMatches, Bool.and_eq_true] at ht
      exact ht.2.1
    obtain ⟨hf, hmin⟩ := indexOfSub_first _ _ hcs
    refine ⟨?_, hf, hmin⟩
    unfold tripleLoc mkLoc
    rw [length_splitChar]
  · intro hnone
    rw [findDynamicLocation_eq_find]
    have : (candTriples (splitChar dash id).length sources.length).find?
        (tripleAccepted id sources) = none :=
      List.find?_eq_none.mpr fun x hx => by simp [hnone x hx]
    rw [this]
    rfl

/-- Witness for C3: conjunct four applied at a concrete accepted triple. -/
theorem claim_first_match_witness :
    tripleLoc exDynId exCorpus (2, 3, 1) =
      ⟨(exCorpus.getD 1 dfltFile).path,
        ((exCorpus.getD 1 dfltFile).content.take
            (indexOfSub (exCorpus.getD 1 dfltFile).content
              (pwOf (candPre (splitChar dash exDynId) 2)))).count nl + 1⟩ :=
  ((claim_first_match exDynId exCorpus).2.2.2.1 (2, 3, 1) (by decide)).1

/-- C4: a candidate whose head is shorter than 6 characters is never
accepted, a candidate whose tail is non-empty and shorter than 6 characters
is never accepted, every accepted triple satisfies both bounds, and a
candidate with an empty tail is exempt from the tail guard: once the head
guard passes it proceeds to the file scan on the head test alone. -/
theorem claim_guards (id : Str) (sources : List SourceFile) (i j : Nat) :
    ((candPre (splitChar dash id) i).length < MIN_FRAGMENT_LENGTH →
      tryCandidate (splitChar dash id) sources i j = none) ∧
    (candSuf (splitChar dash id) j ≠ [] →
      (candSuf (splitChar dash id) j).length < MIN_FRAGMENT_LENGTH →
      tryCandidate (splitChar dash id) sources i j = none) ∧
    (∀ k : Nat, tripleAccepted id sources (i, j, k) = true →
      MIN_FRAGMENT_LENGTH ≤ (candPre (splitChar dash id) i).length ∧
        (candSuf (splitChar dash id) j = [] ∨
          MIN_FRAGMENT_LENGTH ≤ (candSuf (splitChar dash id) j).length)) ∧
    (candSuf (splitChar dash id) j = [] →
      MIN_FRAGMENT_LENGTH ≤ (candPre (splitChar dash id) i).length →
      tryCandidate (splitChar dash id) sources i j =
        findInFiles (pwOf (candPre (splitChar dash id) i)) [] sources) := by
  refine ⟨?_, ?_, ?_, ?_⟩
  · intro h
    simp [tryCandidate, h]
  · intro hne hlen
    unfold tryCandidate
    by_cases h1 : (candPre (splitChar dash id) i).length < MIN_FRAGMENT_LENGTH
    · simp [h1]
    · have hb : (!(candSuf (splitChar dash id) j).isEmpty &&
          decide ((candSuf (splitChar dash id) j).length < MIN_FRAGMENT_LENGTH)) =
            true := by
        simp [List.isEmpty_iff, hne, hlen]
      simp [h1, hb]
  · intro k hacc
    have hg : guardsOk (candPre (splitChar dash id) i)
        (candSuf (splitChar dash id) j) = true := by
      simp only [tripleAccepted, Bool.and_eq_true] at hacc
      exact hacc.1
    unfold guardsOk at hg
    rw [Bool.and_eq_true] at hg
    obtain ⟨hg1, hg2⟩ := hg
    constructor
    · simp only [Bool.not_eq_true', decide_eq_false_iff_not, Nat.not_lt] at hg1
      exact hg1
    · simp only [Bool.not_eq_true', Bool.and_eq_false_iff,
        decide_eq_false_iff_not, Nat.not_lt] at hg2
      refine hg2.imp (fun h' => ?_) fun h'' => h''
      apply List.isEmpty_iff.mp
      cases hE : (candSuf (splitChar dash id) j).isEmpty
      · rw [hE] at h'
        cases h'
      · rfl
  · intro hsuf hpre
    unfold tryCandidate
    rw [hsuf]
    simp [Nat.not_lt.mpr hpre]

/-- Witness for C4: the bounds hold at a concrete accepted triple. -/
theorem claim_guards_witness :
    MIN_FRAGMENT_LENGTH ≤ (candPre (splitChar dash exDynId) 2).length ∧
      (candSuf (splitChar dash exDynId) 3 = [] ∨
        MIN_FRAGMENT_LENGTH ≤ (candSuf (splitChar dash exDynId) 3).length) :=
  (claim_guards exDynId exCorpus 2 3).2.2.1 1 (by decide)

/-- C5: a dash-free identifier splits into a single component, so the
dynamic search has no candidate pair and returns none, and such an
identifier failing the static test is classified Unused. -/
theorem claim_no_dash (id : Str) (sources : List SourceFile) (h : dash ∉ id) :
    findDynamicLocation id sources = none ∧
      (isUsed id sources = false →
        classify id sources = Classification.Unused) := by
  have hlen : (splitChar dash id).length = 1 := by
    rw [length_splitChar, List.count_eq_zero.mpr h]
  have hfd : findDynamicLocation id sources = none := by
    unfold findDynamicLocation
    simp [hlen]
  refine ⟨hfd, fun hu => ?_⟩
  unfold classify
  simp [hu, hfd]

/-- Witness for C5 at a concrete dash-free identifier. -/
theorem claim_no_dash_witness :
    findDynamicLocation exNoDash exCorpus = none ∧
      classify exNoDash exCorpus = Classification.Unused :=
  ⟨(claim_no_dash exNoDash exCorpus (by decide)).1,
    (claim_no_dash exNoDash exCorpus (by decide)).2 (by decide)⟩

/-- C6: for a candidate with a non-empty tail, a file is accepted exactly
when its content contains the head-plus-marker key and contains the tail
anywhere in the same content — the tail occurrence need not be adjacent to
or after the key occurrence — and the file loop steps through the corpus
with exactly this acceptance test. -/
theorem claim_file_acceptance (pw suf : Str) (f : SourceFile)
    (rest : List SourceFile) (h : suf ≠ []) :
    findInFiles pw suf (f :: rest) =
      (if fileMatches pw suf f = true then some (mkLoc f pw)
        else findInFiles pw suf rest) ∧
    (fileMatches pw suf f = true ↔
      pw <:+: f.content ∧ suf <:+: f.content) := by
  refine ⟨rfl, ?_⟩
  unfold fileMatches
  rw [Bool.and_eq_true, Bool.or_eq_true]
  simp [containsSub_iff, List.isEmpty_iff, h]

/-- Witness for C6: in the example file the tail occurs before the key
occurrence, and both containments hold. -/
theorem claim_file_acceptance_witness :
    pwOf (candPre (splitChar dash exDynId) 2) <:+: exDynFile.content ∧
      candSuf (splitChar dash exDynId) 3 <:+: exDynFile.content :=
  ((claim_file_acceptance (pwOf (candPre (splitChar dash exDynId) 2))
      (candSuf (splitChar dash exDynId) 3) exDynFile [] (by decide)).2).mp
    (by decide)

/-- C7: a completed run carries completion status 0 when the unused group
is empty and 1 otherwise, and the status is non-zero exactly when some
catalog identifier is classified Unused. -/
theorem claim_exit_status (c : Str) (ids : List Str)
    (sources : List SourceFile) :
    (@runMain Unit (Except.ok c) (Except.ok sources)).2 =
      Except.ok (mainExitCode (extractFtlIds c) sources) ∧
    mainExitCode ids sources = (if unused ids sources = [] then 0 else 1) ∧
    (¬mainExitCode ids sources = 0 ↔
      ∃ id ∈ ids, classify id sources = Classification.Unused) := by
  refine ⟨rfl, ?_, ?_⟩
  · unfold mainExitCode
    simp [List.length_eq_zero]
  · constructor
    · intro hne
      have hne' : unused ids sources ≠ [] := by
        intro he
        exact hne (by simp [mainExitCode, he])
      obtain ⟨x, hx⟩ := List.exists_mem_of_ne_nil _ hne'
      rw [unused_eq_filter] at hx
      have hm := List.mem_filter.mp hx
      refine ⟨x, hm.1, ?_⟩
      rw [← isUnusedC_iff, classify_isUnusedC]
      exact hm.2
    · rintro ⟨x, hxmem, hxcls⟩
      have hxin : x ∈ unused ids sources := by
        rw [unused_eq_filter, List.mem_filter]
        refine ⟨hxmem, ?_⟩
        rw [← classify_isUnusedC]
        exact (isUnusedC_iff _).mpr hxcls
      have hne : unused ids sources ≠ [] := by
        intro he
        rw [he] at hxin
        cases hxin
      simp [mainExitCode, List.length_eq_zero, hne]

/-- Witness for C7: the example run has a non-zero status, and the iff
produces a concretely Unused identifier. -/
theorem claim_exit_status_witness :
    ∃ id ∈ exIds, classify id exCorpus = Classification.Unused :=
  ((claim_exit_status exCatalog exIds exCorpus).2.2).mp (by decide)

/-- C8: the parser splits the catalog on newlines and collects, in order
and keeping duplicates, the captures of the matching lines, skipping every
non-matching line; and a line matches with capture `t` exactly when `t` is
a run of identifier characters starting with a letter that opens the line
and is followed by whitespace and an equals sign. -/
theorem claim_catalog_ids (catalog line t : Str) :
    extractFtlIds catalog = (splitChar nl catalog).filterMap matchLine ∧
      (matchLine line = some t ↔ LineCapture line t) := by
  refine ⟨rfl, ?_⟩
  constructor
  · intro h
    cases line with
    | nil => exact absurd h (by simp [matchLine])
    | cons c rest =>
      by_cases hc : isAsciiAlpha c = true
      · rw [matchLine] at h
        simp only [hc, if_true] at h
        cases hws : (rest.dropWhile isIdChar).dropWhile isJsSpace with
        | nil =>
          rw [hws] at h
          exact absurd h (by simp)
        | cons e tail =>
          rw [hws] at h
          by_cases he : (e == '=') = true
          · simp only [he, if_true] at h
            have ht : t = c :: rest.takeWhile isIdChar := by
              cases h
              rfl
            have he' : e = '=' := by simpa using he
            subst he'
            refine ⟨⟨c, rest.takeWhile isIdChar, ht, hc,
              fun x hx => List.mem_takeWhile_imp hx⟩,
              (rest.dropWhile isIdChar).takeWhile isJsSpace, tail, ?_,
              fun x hx => List.mem_takeWhile_imp hx⟩
            rw [ht, List.cons_append, List.cons_append]
            congr 1
            rw [← hws, List.append_assoc, List.takeWhile_append_dropWhile,
              List.takeWhile_append_dropWhile]
          · simp [he] at h
      · rw [matchLine] at h
        simp [hc] at h
  · rintro ⟨⟨c, ts, rfl, hc, hts⟩, sp, rest0, hline, hsp⟩
    subst hline
    simp only [List.cons_append, List.append_assoc]
    rw [matchLine]
    simp only [hc, if_true]
    have hhead1 : ∀ c', (sp ++ '=' :: rest0).head? = some c' →
        isIdChar c' = false := by
      intro c' hc'
      cases sp with
      | nil =>
        have : c' = '=' := by simpa using hc'.symm
        subst this
        decide
      | cons s sp' =>
        have : c' = s := by simpa using hc'.symm
        subst this
        exact jsSpace_not_idChar c' (hsp c' (by simp))
    have hhead2 : ∀ c', (('=' : Char) :: rest0).head? = some c' →
        isJsSpace c' = false := by
      intro c' hc'
      have : c' = '=' := by simpa using hc'.symm
      subst this
      decide
    obtain ⟨htk, hdr⟩ :=
      takeWhile_append_eq isIdChar ts (sp ++ '=' :: rest0) hts hhead1
    obtain ⟨htk2, hdr2⟩ :=
      takeWhile_append_eq isJsSpace sp ('=' :: rest0) hsp hhead2
    rw [hdr, hdr2, htk]
    simp

/-- Witness for C8: the declarative capture holds at a concrete line. -/
theorem claim_catalog_ids_witness : LineCapture exLine exUsedId :=
  ((claim_catalog_ids exCatalog exLine exUsedId).2).mp (by decide)

/-- C9 counterexample: a run whose catalog read succeeds and whose source
directory read fails aborts with the read failure, yet the identifier-count
report line has already been emitted, so report output does precede the
abort. -/
theorem claim_abort_counterexample :
    (@runMain Unit (Except.ok exCatalog) (Except.error ())).2 =
        Except.error () ∧
      (@runMain Unit (Except.ok exCatalog) (Except.error ())).1 =
        [ReportLine.foundIds 4] ∧
      (@runMain Unit (Except.ok exCatalog) (Except.error ())).1 ≠ [] :=
  ⟨rfl, by decide, by decide⟩

/-- C9 amended: a read failure propagates and the run aborts before
producing any classification; a catalog read failure emits no report line,
while a source read failure emits exactly the identifier-count line first. -/
theorem claim_abort_amended {ε : Type} (e : ε) (c : Str)
    (src : Except ε (List SourceFile)) :
    runMain (Except.error e) src = ([], Except.error e) ∧
      runMain (Except.ok c) (Except.error e) =
        ([ReportLine.foundIds (extractFtlIds c).length], Except.error e) :=
  ⟨rfl, rfl⟩

/-- C10: any two occurrences of the same identifier string receive the same
classification — the count of an identifier in each output group is either
its full catalog count or zero, according to its class — and every dynamic
entry carries exactly the dynamic-search result of its identifier, so
duplicate dynamic identifiers carry the same location. -/
theorem claim_duplicates (ids : List Str) (sources : List SourceFile)
    (id : Str) :
    ((usedGroup ids sources).count id =
      if isUsed id sources = true then ids.count id else 0) ∧
    ((dynamicIds ids sources).count id =
      if (classify id sources).isDynC = true then ids.count id else 0) ∧
    ((unused ids sources).count id =
      if (classify id sources).isUnusedC = true then ids.count id else 0) ∧
    ∀ p ∈ dynamicEntries ids sources,
      p.2 = findDynamicLocation p.1 sources := by
  refine ⟨?_, ?_, ?_, ?_⟩
  · unfold usedGroup
    rw [count_filter_eq]
  · rw [dynamicIds_eq_filter, count_filter_eq, ← classify_isDynC]
  · rw [unused_eq_filter, count_filter_eq, ← classify_isUnusedC]
  · intro p hp
    unfold dynamicEntries at hp
    have hmem := (List.mem_filter.mp hp).1
    obtain ⟨x, hx, rfl⟩ := List.mem_map.mp hmem
    rfl

/-- Witness for C10: a concrete dynamic entry of the example run carries
the dynamic-search result of its identifier. -/
theorem claim_duplicates_witness :
    (exDynId, some (⟨"web/a.mjs".toList, 2⟩ : MatchLocation)).2 =
      findDynamicLocation exDynId exCorpus :=
  (claim_duplicates exIds exCorpus exDynId).2.2.2
    (exDynId, some ⟨"web/a.mjs".toList, 2⟩) (by decide)

end CheckL10n
